import Mathlib

/-!
Verification of the Mimir multi-agent orchestrator
(`src/pipelines/mimir_orchestrator.py`) against its natural-language
specification.

The Python source is shallowly embedded below.  Pure logic (verdict/score
pass rule, retry loop bounds, wave scheduling, plan parsing, request
deduplication) is translated into executable Lean definitions; external
effects (the LLM transport, Python `re.search` over free text where a claim
quantifies at that boundary) are represented as explicit inputs, as noted at
each definition.
-/

namespace Mimir

/-! ## QC verdict/score parsing and pass rule (`_execute_qc`)

`_execute_qc` asks the verifier model for a structured verdict, then parses
the free-text answer with `re.search`.  The regex library calls are external
effects; the embedding takes their outcome as inputs:

* `vm : Option String` — the captured group of the first verdict pattern that
  matched (`(PASS|FAIL)` case-insensitively, original spelling preserved),
  or `none` when no verdict pattern matched;
* `sm : Option Nat` — the digits captured by a score pattern (`\d+`, so a
  natural number), or `none` when no score pattern matched.

Everything after those two `re.search` boundaries is translated literally:
`verdict = verdict_match.group(1).upper() if verdict_match else "FAIL"`,
`score = int(score_match.group(1)) if score_match else 0`, and
`'passed': verdict == "PASS" and score >= 80`.
-/

/-- Result dictionary returned by `_execute_qc`. -/
structure QCOutcome where
  passed : Bool
  score : Nat
  feedback : String
  issues : List String
  required_fixes : List String
  raw_output : String
  deriving Repr, DecidableEq

/-- Python `str.upper()` (ASCII case mapping suffices for the verdict
captures `PASS`/`FAIL` in any case mix), on the character list of the
string so that it evaluates by kernel reduction. -/
def pyUpper (s : String) : String :=
  ⟨s.data.map Char.toUpper⟩

/-- Python slicing `s[:n]`, on the character list. -/
def pyTake (s : String) (n : Nat) : String :=
  ⟨s.data.take n⟩

/-- `verdict = verdict_match.group(1).upper() if verdict_match else "FAIL"`. -/
def parsedVerdict (vm : Option String) : String :=
  match vm with
  | some s => pyUpper s
  | none => "FAIL"

/-- `score = int(score_match.group(1)) if score_match else 0`. -/
def parsedScore (sm : Option Nat) : Nat :=
  match sm with
  | some n => n
  | none => 0

/-- The result dictionary built at the end of the `try` block of
`_execute_qc`: `passed` is `verdict == "PASS" and score >= 80`, `feedback`
is the first 500 characters of the raw output, `issues` and
`required_fixes` are the first five bullet matches. -/
def execute_qc (qcOutput : String) (vm : Option String) (sm : Option Nat)
    (issues : List String) : QCOutcome :=
  let verdict := parsedVerdict vm
  let score := parsedScore sm
  { passed := verdict == "PASS" && decide (score ≥ 80)
    score := score
    feedback := pyTake qcOutput 500
    issues := issues.take 5
    required_fixes := issues.take 5
    raw_output := qcOutput }

/-- The `except` branch of `_execute_qc`: any exception yields a
not-passed result with score 0. -/
def execute_qc_exception (e : String) : QCOutcome :=
  { passed := false
    score := 0
    feedback := s!"QC execution failed: {e}"
    issues := [e]
    required_fixes := ["Fix QC execution error"]
    raw_output := "" }

/-! ## Request deduplication (`pipe`, lines 489-516, and `__init__`)

`Pipe.__init__` creates a fresh per-instance cache
(`self._request_cache = {}` with `self._cache_ttl = 3`); the `pipe` method
checks the fingerprint of the incoming message against that instance cache,
rejects duplicates younger than the TTL, otherwise records the request and
prunes entries older than the TTL.  The module-level `_REQUEST_CACHE` /
`_CACHE_TTL` pair (lines 15-18), whose comment says it is "shared across all
pipeline instances", is never referenced by `pipe`.

The cache dictionary is embedded as an insertion-ordered association list
(Python dicts preserve insertion order); wall-clock time as an integer. -/

/-- `self._cache_ttl = 3` (seconds). -/
def cacheTTL : Int := 3

/-- `self._request_cache = {}` in `Pipe.__init__`: every new `Pipe`
instance starts with an empty cache. -/
def pipeInstanceCache : List (String × Int) := []

/-- Dictionary read `cache[key]`. -/
def cacheLookup (cache : List (String × Int)) (k : String) : Option Int :=
  match cache.find? (fun p => p.1 == k) with
  | some p => some p.2
  | none => none

/-- Dictionary write `cache[key] = value`: overwrite in place, or append. -/
def cacheSet (cache : List (String × Int)) (k : String) (v : Int) :
    List (String × Int) :=
  if cache.any (fun p => p.1 == k) then
    cache.map (fun p => if p.1 == k then (k, v) else p)
  else
    cache ++ [(k, v)]

/-- The deduplication prologue of `pipe`: returns `(rejected, cache)` where
`rejected = true` means the duplicate-request early return fired (before any
pipeline stage) and the cache is left untouched; otherwise the request is
recorded and entries older than the TTL are pruned. -/
def pipe_dedup (request_cache : List (String × Int)) (request_key : String)
    (current_time : Int) : Bool × List (String × Int) :=
  match cacheLookup request_cache request_key with
  | some cached_time =>
    if current_time - cached_time < cacheTTL then
      (true, request_cache)
    else
      let c1 := cacheSet request_cache request_key current_time
      (false, c1.filter (fun p => current_time - p.2 < cacheTTL))
  | none =>
    let c1 := cacheSet request_cache request_key current_time
    (false, c1.filter (fun p => current_time - p.2 < cacheTTL))

/-! ## Worker invocation (`_call_llm`, `_execute_worker`)

`_call_llm` streams a chat completion.  Its transport-level outcome is an
external effect, embedded as an explicit `LLMTransport` input.  Crucially,
`_call_llm` catches both non-200 responses and raised exceptions itself and
*yields the error as an ordinary text chunk* instead of raising. -/

/-- Outcome of the HTTP call made by `_call_llm`: a successful stream of
content chunks, a non-200 response, or a raised exception (connection
refused, timeout, ...). -/
inductive LLMTransport where
  | ok (chunks : List String)
  | httpError (errorText : String)
  | exn (msg : String)

/-- The chunks yielded by `_call_llm`: on a non-200 status it yields
`"\n\n❌ Error calling {model}: {error_text}\n\n"` and returns; on an
exception it yields `"\n\n❌ Error: {str(e)}\n\n"`.  In both cases the
failure is delivered as ordinary output text. -/
def call_llm (model : String) : LLMTransport → List String
  | LLMTransport.ok chunks => chunks
  | LLMTransport.httpError t => [s!"\n\n❌ Error calling {model}: {t}\n\n"]
  | LLMTransport.exn e => [s!"\n\n❌ Error: {e}\n\n"]

/-- The dictionary returned by `_execute_worker`. -/
structure WorkerResult where
  status : String
  output : Option String
  error : Option String
  deriving Repr, DecidableEq

/-- `_execute_worker`: concatenates the chunks of `_call_llm` and returns a
`completed` result; its `except` branch (reachable only from an exception
raised *outside* `_call_llm`, e.g. while assembling the prompt, since
`_call_llm` swallows its own errors — modelled by `bodyExn`) returns a
`failed` result carrying the raw error. -/
def execute_worker (bodyExn : Option String) (model : String)
    (tr : LLMTransport) : WorkerResult :=
  match bodyExn with
  | some e => { status := "failed", output := none, error := some e }
  | none =>
    { status := "completed"
      output := some (String.join (call_llm model tr))
      error := none }

/-! ## The QC retry loop (`_execute_with_qc`)

The per-task worker → verify → retry state machine.  The worker and QC
results of each attempt are external effects, embedded as attempt-indexed
oracles `worker : Nat → WorkerResult` and `qc : Nat → QCOutcome` (the real
retry prompt also carries the accumulated QC feedback; that prompt text is
opaque to the control flow modelled here).  Graph-store status updates
(`_update_task_status`, `_store_worker_output`, ...) are fire-and-forget
side effects with no influence on control flow and are not modelled.

The `while attempt_number <= max_retries` loop is embedded with a fuel
argument that counts the remaining permitted iterations; both fuel
exhaustion and the `while` exit map to the "Should never reach here"
fallback return of the source. -/

/-- The result dictionary returned by `_execute_with_qc` (and consumed by
`_execute_tasks`).  Absent dictionary keys are `none`: the worker-failure
return is the bare `_execute_worker` dictionary, which has no
`qc_score`/`attempts` keys. -/
structure ExecResult where
  status : String
  output : Option String
  qc_score : Option Nat
  qc_feedback : Option String
  attempts : Option Nat
  error : Option String
  deriving Repr, DecidableEq

/-- `f"QC failed after {max_retries + 1} attempts. Score: {score}/100"`. -/
def qcFailError (max_retries score : Nat) : String :=
  s!"QC failed after {max_retries + 1} attempts. Score: {score}/100"

/-- The fallback result after the loop: `'Unexpected error in QC loop'`. -/
def qcLoopFallback : ExecResult :=
  { status := "failed", output := none, qc_score := none, qc_feedback := none
    attempts := none, error := some "Unexpected error in QC loop" }

/-- Output of the retry loop: the returned dictionary, the number of worker
invocations made, and the final value of `attempt_number`. -/
structure QCLoopOut where
  result : ExecResult
  workerCalls : Nat
  finalAttempt : Nat
  deriving Repr, DecidableEq

/-- The `while attempt_number <= max_retries` loop of `_execute_with_qc`:
increment `attempt_number`, invoke the worker (worker failure returns the
worker dictionary unchanged), invoke QC, return `completed` on a passing
verdict, return `failed` when `attempt_number > max_retries`, otherwise
retry. -/
def execute_with_qc_loop (worker : Nat → WorkerResult) (qc : Nat → QCOutcome)
    (max_retries : Nat) :
    Nat → Nat → Nat → QCLoopOut
  | 0, attempt_number, calls => ⟨qcLoopFallback, calls, attempt_number⟩
  | fuel + 1, attempt_number, calls =>
    if attempt_number ≤ max_retries then
      let a := attempt_number + 1
      let w := worker a
      if w.status == "failed" then
        ⟨{ status := "failed", output := w.output, qc_score := none
           qc_feedback := none, attempts := none, error := w.error },
         calls + 1, a⟩
      else
        let q := qc a
        if q.passed then
          ⟨{ status := "completed", output := w.output
             qc_score := some q.score, qc_feedback := some q.feedback
             attempts := some a, error := none }, calls + 1, a⟩
        else if max_retries < a then
          ⟨{ status := "failed", output := w.output, qc_score := some q.score
             qc_feedback := some q.feedback, attempts := some a
             error := some (qcFailError max_retries q.score) }, calls + 1, a⟩
        else
          execute_with_qc_loop worker qc max_retries fuel a (calls + 1)
    else
      ⟨qcLoopFallback, calls, attempt_number⟩

/-- `_execute_with_qc` with the retry bound left as a parameter:
`attempt_number = 0` initially, and `max_retries + 1` units of fuel, enough
for every iteration the loop guard permits. -/
def execute_with_qc_gen (max_retries : Nat) (worker : Nat → WorkerResult)
    (qc : Nat → QCOutcome) : QCLoopOut :=
  execute_with_qc_loop worker qc max_retries (max_retries + 1) 0 0

/-- `_execute_with_qc` as written: `max_retries = 2  # Default from
architecture` is hardcoded (`_parse_pm_tasks` attaches no per-task retry
field). -/
def execute_with_qc (worker : Nat → WorkerResult) (qc : Nat → QCOutcome) :
    QCLoopOut :=
  execute_with_qc_gen 2 worker qc

/-- A worker oracle whose every attempt reports a failed status. -/
def constFailedWorker (outp : Option String) (e : String) :
    Nat → WorkerResult :=
  fun _ => { status := "failed", output := outp, error := some e }

/-! ## The wave scheduler (`_execute_tasks`)

`_execute_tasks` drives the task set wave by wave: `remaining` starts as the
set of all task ids, each iteration computes the `ready` list (tasks still
remaining whose dependencies are all in `completed`), halts with a
circular-dependency error when `ready` is empty, partitions `ready` by
`parallel_group` (a Python dict, so group order is first-occurrence order),
runs each group's tasks concurrently via `asyncio.gather`, marks every
executed task completed/removed from remaining (even failed ones), and
returns early after the first group containing a failure, reporting the ids
still in `remaining`.  After the loop (normal end or circular-dependency
`break`) it emits completed/failed counts.

The per-task execution result (`_execute_with_qc`) is embedded as an oracle
`PMTask → ExecResult`; `asyncio.gather` over a group becomes a map that
yields a result for every task of the group.  The `while` loop is embedded
with a fuel argument; `execute_tasks` supplies `remaining.length + 1` units,
which the progress lemmas show is never exhausted since every executed wave
strictly shrinks `remaining`. -/

/-- A task dictionary as built by `_parse_pm_tasks`. -/
structure PMTask where
  id : String
  title : String
  prompt : String
  dependencies : List String
  parallel_group : Option Int
  worker_role : String
  qc_role : String
  verification_criteria : String
  status : String
  deriving Repr, DecidableEq

/-- Grouping key: `task['parallel_group'] if ... is not None else -1`. -/
def pgKey (t : PMTask) : Int :=
  match t.parallel_group with
  | some g => g
  | none => -1

/-- The keys of the `groups` dict in first-occurrence order (Python dicts
preserve insertion order). -/
def groupKeys (ready : List PMTask) : List Int :=
  ready.foldl (fun ks t => if ks.contains (pgKey t) then ks else ks ++ [pgKey t]) []

/-- The values of the `groups` dict, in key order: the ready tasks of each
parallel group, in ready order. -/
def groupReady (ready : List PMTask) : List (List PMTask) :=
  (groupKeys ready).map (fun k => ready.filter (fun t => pgKey t == k))

/-- State after running the groups of one wave: accumulated `(id, result)`
pairs in start order, the `completed` and `remaining` sets, and whether the
cascade-stop early return fired. -/
structure WaveOut where
  acc : List (String × ExecResult)
  completed : List String
  remaining : List String
  stopped : Bool
  deriving Repr, DecidableEq

/-- The `for group_id, group_tasks in groups.items()` loop: each group is
gathered concurrently (every task of a launched group yields a result), all
its tasks are added to `completed` and discarded from `remaining`, and the
loop returns early when a group contains a non-completed result. -/
def runGroups (oracle : PMTask → ExecResult) :
    List (List PMTask) → List String → List String →
      List (String × ExecResult) → WaveOut
  | [], completed, remaining, acc => ⟨acc, completed, remaining, false⟩
  | g :: rest, completed, remaining, acc =>
    let res := g.map (fun t => (t.id, oracle t))
    let acc1 := acc ++ res
    let completed1 := completed ++ g.map (fun t => t.id)
    let remaining1 :=
      remaining.filter (fun i => !((g.map (fun t => t.id)).contains i))
    if res.any (fun p => !(p.2.status == "completed")) then
      ⟨acc1, completed1, remaining1, true⟩
    else
      runGroups oracle rest completed1 remaining1 acc1

/-- `ready = [task for task in tasks if task['id'] in remaining and
all(dep in completed for dep in task['dependencies'])]`. -/
def readySet (tasks : List PMTask) (completed remaining : List String) :
    List PMTask :=
  tasks.filter (fun t =>
    remaining.contains t.id &&
      t.dependencies.all (fun d => completed.contains d))

/-- Terminal report of `_execute_tasks`: the executed `(id, result)` pairs in
start order, whether the circular-dependency error was yielded, whether the
cascade-stop early return fired, the "Remaining Tasks" list of that early
return (ids never started, in task-list order), and the final summary counts
(the early return emits no summary; its counts are 0). -/
structure RunReport where
  results : List (String × ExecResult)
  graphError : Bool
  stoppedOnFailure : Bool
  skippedReport : List String
  completedCount : Nat
  failedCount : Nat
  deriving Repr, DecidableEq

/-- `t.get('result_status') == 'completed'` via the stored results. -/
def resultStatusIs (acc : List (String × ExecResult)) (i : String)
    (s : String) : Bool :=
  match acc.find? (fun p => p.1 == i) with
  | some p => p.2.status == s
  | none => false

/-- The final summary (runs both after normal loop exit and after the
circular-dependency `break`): counts of executed tasks whose stored result
status is completed resp. failed. -/
def finishReport (tasks : List PMTask) (completed : List String)
    (acc : List (String × ExecResult)) (gerr : Bool) : RunReport :=
  { results := acc
    graphError := gerr
    stoppedOnFailure := false
    skippedReport := []
    completedCount :=
      (tasks.filter (fun t =>
        completed.contains t.id && resultStatusIs acc t.id "completed")).length
    failedCount :=
      (tasks.filter (fun t =>
        completed.contains t.id && resultStatusIs acc t.id "failed")).length }

/-- The cascade-stop early return: reports the tasks whose ids are still in
`remaining` and exits without a summary. -/
def stopReport (tasks : List PMTask) (out : WaveOut) : RunReport :=
  { results := out.acc
    graphError := false
    stoppedOnFailure := true
    skippedReport :=
      (tasks.filter (fun t => out.remaining.contains t.id)).map
        (fun t => t.id)
    completedCount := 0
    failedCount := 0 }

/-- The `while remaining:` loop of `_execute_tasks`. -/
def execute_tasks_loop (tasks : List PMTask) (oracle : PMTask → ExecResult) :
    Nat → List String → List String → List (String × ExecResult) → RunReport
  | 0, completed, _, acc => finishReport tasks completed acc true
  | fuel + 1, completed, remaining, acc =>
    if remaining.isEmpty then finishReport tasks completed acc false
    else
      let ready := readySet tasks completed remaining
      if ready.isEmpty then finishReport tasks completed acc true
      else
        let out := runGroups oracle (groupReady ready) completed remaining acc
        if out.stopped then stopReport tasks out
        else execute_tasks_loop tasks oracle fuel out.completed out.remaining
          out.acc

/-- `_execute_tasks`: `remaining` starts as the set of all task ids (a Python
set; embedded as the deduplicated id list), `completed` empty. -/
def execute_tasks (tasks : List PMTask) (oracle : PMTask → ExecResult) :
    RunReport :=
  let remaining0 := (tasks.map (fun t => t.id)).dedup
  execute_tasks_loop tasks oracle (remaining0.length + 1) [] remaining0 []

/-- The ids of a task list. -/
def allIds (tasks : List PMTask) : List String :=
  tasks.map (fun t => t.id)

/-- A start trace respects dependencies: the executed `(id, result)` list can
be built left to right so that whenever a task of the run is started, every
one of its dependencies already appears earlier in the trace with a
`completed` result. -/
inductive TraceOK (tasks : List PMTask) :
    List (String × ExecResult) → Prop where
  | nil : TraceOK tasks []
  | snoc (res : List (String × ExecResult)) (p : String × ExecResult)
      (hres : TraceOK tasks res)
      (hdep : ∀ t ∈ tasks, t.id = p.1 → ∀ d ∈ t.dependencies,
        ∃ q ∈ res, q.1 = d ∧ q.2.status = "completed") :
      TraceOK tasks (res ++ [p])

/-! ### Concrete inputs used by counterexamples and witnesses -/

/-- A parsed task with no dependencies and all defaults. -/
def taskNoDeps (i : String) : PMTask :=
  { id := i, title := "t", prompt := "", dependencies := []
    parallel_group := none, worker_role := "Worker agent"
    qc_role := "QC agent", verification_criteria := "v", status := "pending" }

/-- A parsed task with the given dependency list. -/
def taskWithDeps (i : String) (ds : List String) : PMTask :=
  { id := i, title := "t", prompt := "", dependencies := ds
    parallel_group := none, worker_role := "Worker agent"
    qc_role := "QC agent", verification_criteria := "v", status := "pending" }

/-- A successful `_execute_with_qc` result. -/
def okExecResult : ExecResult :=
  { status := "completed", output := some "ok", qc_score := some 90
    qc_feedback := some "good", attempts := some 1, error := none }

/-- A failed `_execute_with_qc` result. -/
def failedExecResult : ExecResult :=
  { status := "failed", output := some "bad", qc_score := some 40
    qc_feedback := some "weak", attempts := some 3
    error := some "QC failed after 3 attempts. Score: 40/100" }

/-- Every task succeeds. -/
def allOkOracle : PMTask → ExecResult := fun _ => okExecResult

/-- The first task fails, all others succeed. -/
def failFirstOracle : PMTask → ExecResult :=
  fun t => if t.id == "task-1" then failedExecResult else okExecResult

/-- An independent task `task-3` plus the two-task cycle
`task-1 -> task-2 -> task-1`. -/
def cycleTasks : List PMTask :=
  [taskNoDeps "task-3", taskWithDeps "task-1" ["task-2"],
    taskWithDeps "task-2" ["task-1"]]

/-- Exactly the two-task cycle `task-1 -> task-2 -> task-1`. -/
def pureCycleTasks : List PMTask :=
  [taskWithDeps "task-1" ["task-2"], taskWithDeps "task-2" ["task-1"]]

/-- Two independent tasks in one wave plus a dependent third task. -/
def waveTasks : List PMTask :=
  [taskNoDeps "task-1", taskNoDeps "task-2",
    taskWithDeps "task-3" ["task-1"]]

/-! ## Plan parsing (`_parse_pm_tasks`)

`_parse_pm_tasks` splits the PM output on `**Task ID:**` markers
(`re.split` with a `\n(?=\s*\*\*Task\s+ID:\*\*)` lookahead), skips sections
that strip to nothing, drops sections without a recognizable task id
(printing a warning), and extracts labeled fields per section with
permissive case-insensitive regexes.  The regexes are hand-compiled below
into character-list scanners; the relevant character classes (`\s`, `\d`,
`[A-Za-z]`) are modelled at ASCII, which is faithful on the inputs
considered.  Where noted, a degenerate whitespace-only capture of the
Python regex (which strips to the empty string, a falsy value) is embedded
as `none`; both behave identically downstream, where every use guards with
Python truthiness.

Python `str.isdigit` accepts any character with Unicode
`Numeric_Type=Digit` — including the superscript digits — while `int()`
accepts only decimal digits, so the guard
`int(parallel_group) if parallel_group and parallel_group.isdigit()` can
raise `ValueError`.  `pyCharIsDigit` models the `isdigit` class on ASCII
digits plus the superscript digits; `pyIntParse` models `int()`. -/

/-- Python `\s` on the ASCII whitespace characters. -/
def pyWs (c : Char) : Bool :=
  c == ' ' || c == '\t' || c == '\n' || c == '\r' || c == '\x0b' ||
    c == '\x0c'

/-- Python `str.strip()`. -/
def pyStrip (l : List Char) : List Char :=
  ((l.dropWhile pyWs).reverse.dropWhile pyWs).reverse

/-- Python `str.lower()` (ASCII). -/
def pyLower (l : List Char) : List Char :=
  l.map Char.toLower

/-- `[A-Za-z]`. -/
def isAsciiLetter (c : Char) : Bool :=
  ('a' ≤ c && c ≤ 'z') || ('A' ≤ c && c ≤ 'Z')

/-- Match a literal pattern (given lowercase) case-insensitively at the head
of the input, returning the rest on success. -/
def matchLitCI : List Char → List Char → Option (List Char)
  | [], cs => some cs
  | _ :: _, [] => none
  | p :: ps, c :: cs => if c.toLower == p then matchLitCI ps cs else none

/-- The marker regex `\*\*Task\s+ID:\*\*` at the head of the input. -/
def matchTaskIdMarker (cs : List Char) : Option (List Char) :=
  match matchLitCI "**task".data cs with
  | none => none
  | some r1 =>
    if (r1.takeWhile pyWs).isEmpty then none
    else matchLitCI "id:**".data (r1.dropWhile pyWs)

/-- The split lookahead `(?=\s*\*\*Task\s+ID:\*\*)`. -/
def splitLookahead (cs : List Char) : Bool :=
  (matchTaskIdMarker (cs.dropWhile pyWs)).isSome

/-- `re.split(r'\n(?=\s*\*\*Task\s+ID:\*\*)', pm_output)`: cut (consuming
the newline) at every newline whose suffix passes the lookahead. -/
def splitSectionsAux : List Char → List Char → List (List Char)
  | [], cur => [cur.reverse]
  | c :: rest, cur =>
    if c == '\n' && splitLookahead rest then
      cur.reverse :: splitSectionsAux rest []
    else
      splitSectionsAux rest (c :: cur)

/-- All sections of the plan text. -/
def splitSections (cs : List Char) : List (List Char) :=
  splitSectionsAux cs []

/-- The task-id regex
`\*\*Task\s+ID:\*\*\s*(task[-\s]*\d+(?:\.\d+)?)` anchored at the head of
the input; returns the captured group. -/
def tryTaskIdAt (l : List Char) : Option (List Char) :=
  match matchTaskIdMarker l with
  | none => none
  | some r1 =>
    let r2 := r1.dropWhile pyWs
    match matchLitCI "task".data r2 with
    | none => none
    | some r3 =>
      let r4 := r3.dropWhile (fun c => pyWs c || c == '-')
      let ds := r4.takeWhile Char.isDigit
      if ds.isEmpty then none
      else
        let r5 := r4.drop ds.length
        let r6 :=
          match r5 with
          | '.' :: r5x =>
            let fs := r5x.takeWhile Char.isDigit
            if fs.isEmpty then r5 else r5x.drop fs.length
          | _ => r5
        some (r2.take (r2.length - r6.length))

/-- `re.search` of the task-id pattern: leftmost match over the section. -/
def findTaskId : List Char → Option (List Char)
  | [] => none
  | c :: rest =>
    match tryTaskIdAt (c :: rest) with
    | some cap => some cap
    | none => findTaskId rest

/-- `\*\*{field_name}:\*\*` at the head of the input. -/
def matchLabel (label : List Char) (cs : List Char) : Option (List Char) :=
  matchLitCI (('*' :: '*' :: label) ++ (':' :: '*' :: '*' :: [])) cs

/-- Leftmost occurrence of the label pattern; returns the rest after it. -/
def findLabel (label : List Char) : List Char → Option (List Char)
  | [] => none
  | c :: rest =>
    match matchLabel label (c :: rest) with
    | some r => some r
    | none => findLabel label rest

/-- `extract_field`: regex `\*\*{field_name}:\*\*\s*\n?([^\n]+)` with
`re.IGNORECASE`, then `.strip()`.  The greedy `\s*` crosses newlines, so the
value is the rest of the first line holding a non-whitespace character
after the label.  (With only whitespace after the label the Python match
either fails or captures whitespace that strips to the falsy empty string;
embedded as `none`, equivalent downstream.) -/
def extract_field (label : List Char) (sec : List Char) :
    Option (List Char) :=
  match findLabel label sec with
  | none => none
  | some rest =>
    match rest.dropWhile pyWs with
    | [] => none
    | c :: r => some (pyStrip (c :: r.takeWhile (fun d => !(d == '\n'))))

/-- The multiline-field boundary lookahead
`\n\*\*[A-Za-z][A-Za-z\s]+:\*\*` checked after a newline. -/
def nextLabelAt (cs : List Char) : Bool :=
  match cs with
  | '*' :: '*' :: c0 :: rest =>
    if isAsciiLetter c0 then
      let run := rest.takeWhile (fun c => isAsciiLetter c || pyWs c)
      if run.isEmpty then false
      else
        match rest.drop run.length with
        | ':' :: '*' :: '*' :: _ => true
        | _ => false
    else false
  | _ => false

/-- The lazy continuation of `([\s\S]+?)`: extend the capture until the next
position is the end of the section or starts a label line. -/
def lazyCaptureGo : List Char → List Char
  | [] => []
  | c :: rest =>
    if c == '\n' && nextLabelAt rest then []
    else c :: lazyCaptureGo rest

/-- `extract_multiline_field`: regex
`\*\*{field_name}:\*\*\s*\n([\s\S]+?)(?=\n\*\*[A-Za-z][A-Za-z\s]+:\*\*|$)`
then `.strip()`.  The greedy `\s*\n` puts the capture right after the last
newline of the whitespace run following the label; the lazy body runs to
the first boundary.  (A capture that would be empty or all-whitespace
strips to the falsy empty string; embedded as `none`, equivalent
downstream.) -/
def extract_multiline_field (label : List Char) (sec : List Char) :
    Option (List Char) :=
  match findLabel label sec with
  | none => none
  | some rest =>
    let wsRun := rest.takeWhile pyWs
    if wsRun.contains '\n' then
      let k := (wsRun.reverse.takeWhile (fun c => !(c == '\n'))).length
      match rest.drop (wsRun.length - k) with
      | [] => none
      | c :: tail => some (pyStrip (c :: lazyCaptureGo tail))
    else none

/-- Python `str.split(',')` (keeps empty pieces). -/
def splitCommaAux : List Char → List Char → List (List Char)
  | [], cur => [cur.reverse]
  | c :: rest, cur =>
    if c == ',' then cur.reverse :: splitCommaAux rest []
    else splitCommaAux rest (c :: cur)

/-- Python `str.isdigit` on one character: true for characters with Unicode
`Numeric_Type=Digit` — ASCII digits and (the part of the table relevant
here) the superscript digits U+00B9, U+00B2, U+00B3, U+2070, U+2074-U+2079.
-/
def pyCharIsDigit (c : Char) : Bool :=
  c.isDigit || c == '¹' || c == '²' || c == '³' || c == '⁰' || c == '⁴' ||
    c == '⁵' || c == '⁶' || c == '⁷' || c == '⁸' || c == '⁹'

/-- Python `str.isdigit`: nonempty and all characters digits. -/
def pyStrIsDigit (l : List Char) : Bool :=
  !l.isEmpty && l.all pyCharIsDigit

/-- Python `int()`: accepts (modulo sign/underscore forms not reachable
here) only decimal-digit strings; anything else raises `ValueError`.  The
superscript digits satisfy `isdigit` but are not decimal digits. -/
def pyIntParse (l : List Char) : Except String Int :=
  if !l.isEmpty && l.all Char.isDigit then
    Except.ok (Int.ofNat
      (l.foldl (fun n c => n * 10 + (c.toNat - '0'.toNat)) 0))
  else
    Except.error "ValueError: invalid literal for int() with base 10"

/-- Python truthy `value or default` for an optional stripped field. -/
def orDefault (v : Option (List Char)) (d : String) : String :=
  match v with
  | some l => if l.isEmpty then d else l.asString
  | none => d

/-- Build the task dictionary of one section, given the captured id; the
`int(parallel_group)` conversion can raise. -/
def buildTask (cap : List Char) (sec : List Char) : Except String PMTask :=
  let task_id := (cap.map (fun c => if c == ' ' then '-' else c)).asString
  let title := extract_field "title".data sec
  let prompt := extract_multiline_field "prompt".data sec
  let dependencies_str := extract_field "dependencies".data sec
  let parallel_group := extract_field "parallel group".data sec
  let worker_role := extract_field "agent role description".data sec
  let qc_role := extract_field "qc agent role description".data sec
  let verification_criteria :=
    extract_multiline_field "verification criteria".data sec
  let dependencies :=
    match dependencies_str with
    | some d =>
      if !d.isEmpty && !(pyLower d == "none".data) &&
          !(pyLower d == "n/a".data) then
        (splitCommaAux d []).map (fun p => (pyStrip p).asString)
      else []
    | none => []
  match (match parallel_group with
         | some p =>
           if !p.isEmpty && pyStrIsDigit p then (pyIntParse p).map some
           else Except.ok none
         | none => Except.ok none : Except String (Option Int)) with
  | Except.error e => Except.error e
  | Except.ok pg =>
    Except.ok
      { id := task_id
        title := orDefault title s!"Task {task_id}"
        prompt := orDefault prompt ""
        dependencies := dependencies
        parallel_group := pg
        worker_role := orDefault worker_role "Worker agent"
        qc_role := orDefault qc_role "QC agent"
        verification_criteria := orDefault verification_criteria
          "Verify the output meets all task requirements."
        status := "pending" }

/-- The per-section loop of `_parse_pm_tasks`: skip sections that strip to
nothing, record a warning (the skip message printed by the source) for
sections without a recognizable task id, build a task otherwise; an
uncaught exception aborts the parse. -/
def parseSectionsAux : List (List Char) →
    Except String (List PMTask × List String)
  | [] => Except.ok ([], [])
  | sec :: rest =>
    if (pyStrip sec).isEmpty then parseSectionsAux rest
    else
      match findTaskId sec with
      | none =>
        match parseSectionsAux rest with
        | Except.error e => Except.error e
        | Except.ok (ts, ws) => Except.ok (ts, sec.asString :: ws)
      | some cap =>
        match buildTask cap sec with
        | Except.error e => Except.error e
        | Except.ok t =>
          match parseSectionsAux rest with
          | Except.error e => Except.error e
          | Except.ok (ts, ws) => Except.ok (t :: ts, ws)

/-- `_parse_pm_tasks`: split into sections and process each; returns the
tasks in document order together with the dropped-section warnings, or the
uncaught exception. -/
def parse_pm_tasks (pm : String) :
    Except String (List PMTask × List String) :=
  parseSectionsAux (splitSections pm.data)

end Mimir

namespace Mimir

/-- Worker-invocation count of the retry loop is bounded by the fuel plus
the calls already made. -/
theorem execute_with_qc_loop_calls (worker : Nat → WorkerResult)
    (qc : Nat → QCOutcome) (max_retries : Nat) :
    ∀ fuel attempt_number calls, attempt_number ≤ max_retries + 1 →
      (execute_with_qc_loop worker qc max_retries fuel attempt_number
          calls).workerCalls ≤ calls + (max_retries + 1 - attempt_number) ∧
      (execute_with_qc_loop worker qc max_retries fuel attempt_number
          calls).finalAttempt ≤ max_retries + 1 := by
  intro fuel
  induction fuel with
  | zero =>
    intro attempt_number calls h
    simp only [execute_with_qc_loop]
    omega
  | succ fuel ih =>
    intro attempt_number calls h
    simp only [execute_with_qc_loop]
    by_cases hle : attempt_number ≤ max_retries
    · simp only [if_pos hle]
      by_cases hw : (worker (attempt_number + 1)).status == "failed"
      · simp only [if_pos hw]
        constructor <;> simp <;> omega
      · simp only [if_neg hw]
        by_cases hq : (qc (attempt_number + 1)).passed
        · simp only [if_pos hq]
          constructor <;> simp <;> omega
        · simp only [if_neg hq]
          by_cases hm : max_retries < attempt_number + 1
          · simp only [if_pos hm]
            constructor <;> simp <;> omega
          · simp only [if_neg hm]
            have := ih (attempt_number + 1) (calls + 1) (by omega)
            constructor
            · exact le_trans this.1 (by omega)
            · exact this.2
    · simp only [if_neg hle]
      simp
      omega

/-- Python `in` on a list embedded via `List.contains`. -/
theorem contains_eq_mem {α : Type} [BEq α] [LawfulBEq α] (l : List α)
    (a : α) : l.contains a = true ↔ a ∈ l := by
  simp

/-- First components of the gathered `(id, result)` pairs of a group. -/
theorem map_fst_pair (oracle : PMTask → ExecResult) (g : List PMTask) :
    (g.map (fun t => (t.id, oracle t))).map Prod.fst =
      g.map (fun t => t.id) := by
  simp [List.map_map]

/-- Running groups only removes elements from `remaining`. -/
theorem runGroups_remaining_sublist (oracle : PMTask → ExecResult) :
    ∀ (groups : List (List PMTask)) (completed remaining : List String)
      (acc : List (String × ExecResult)),
      (runGroups oracle groups completed remaining acc).remaining.Sublist
        remaining := by
  intro groups
  induction groups with
  | nil => intro completed remaining acc; exact List.Sublist.refl _
  | cons g rest ih =>
    intro completed remaining acc
    simp only [runGroups]
    by_cases hfail : (g.map (fun t => (t.id, oracle t))).any
        (fun p => !(p.2.status == "completed"))
    · simp only [if_pos hfail]
      exact List.filter_sublist remaining
    · simp only [if_neg hfail]
      exact (ih _ _ _).trans (List.filter_sublist remaining)

/-- Specification of one wave: the gathered results extend the accumulator
by one entry per executed task; `completed` grows by exactly the executed
ids; `remaining` loses exactly the executed ids; each new entry is the
oracle result of a task of the wave; when the wave does not stop, every
task of every group was executed and succeeded; when it stops, some new
entry failed. -/
theorem runGroups_spec (oracle : PMTask → ExecResult) :
    ∀ (groups : List (List PMTask)) (completed remaining : List String)
      (acc : List (String × ExecResult)),
      ∃ new : List (String × ExecResult),
        (runGroups oracle groups completed remaining acc).acc
            = acc ++ new ∧
        (runGroups oracle groups completed remaining acc).completed
            = completed ++ new.map Prod.fst ∧
        (∀ i : String,
          i ∈ (runGroups oracle groups completed remaining acc).remaining ↔
            (i ∈ remaining ∧ ¬ i ∈ new.map Prod.fst)) ∧
        (∀ p ∈ new, ∃ t ∈ groups.flatten, p = (t.id, oracle t)) ∧
        ((runGroups oracle groups completed remaining acc).stopped = false →
          (∀ t ∈ groups.flatten, t.id ∈ new.map Prod.fst) ∧
          (∀ p ∈ new, p.2.status = "completed")) ∧
        ((runGroups oracle groups completed remaining acc).stopped = true →
          ∃ p ∈ new, ¬ p.2.status = "completed") := by
  intro groups
  induction groups with
  | nil =>
    intro completed remaining acc
    refine ⟨[], by simp [runGroups], by simp [runGroups], ?_, by simp,
      by simp [runGroups], by simp [runGroups]⟩
    intro i
    simp [runGroups]
  | cons g rest ih =>
    intro completed remaining acc
    simp only [runGroups]
    by_cases hfail : (g.map (fun t => (t.id, oracle t))).any
        (fun p => !(p.2.status == "completed"))
    · simp only [if_pos hfail]
      refine ⟨g.map (fun t => (t.id, oracle t)), rfl, ?_, ?_, ?_, ?_, ?_⟩
      · rw [map_fst_pair]
      · intro i
        rw [map_fst_pair]
        simp [List.mem_filter]
      · intro p hp
        rcases List.mem_map.mp hp with ⟨t, ht, rfl⟩
        exact ⟨t, by simp [ht], rfl⟩
      · intro h; cases h
      · intro _
        rcases List.any_eq_true.mp hfail with ⟨p, hp, hfp⟩
        refine ⟨p, hp, ?_⟩
        simpa using hfp
    · simp only [if_neg hfail]
      rcases ih (completed ++ g.map (fun t => t.id))
          (remaining.filter
            (fun i => !((g.map (fun t => t.id)).contains i)))
          (acc ++ g.map (fun t => (t.id, oracle t))) with
        ⟨new1, hacc, hcomp, hrem, horig, hok, hstop⟩
      refine ⟨g.map (fun t => (t.id, oracle t)) ++ new1, ?_, ?_, ?_, ?_, ?_,
        ?_⟩
      · rw [hacc, List.append_assoc]
      · rw [hcomp, List.map_append, map_fst_pair, List.append_assoc]
      · intro i
        rw [hrem i, List.map_append, map_fst_pair]
        have hfilt : i ∈ remaining.filter
            (fun j => !((g.map (fun t => t.id)).contains j)) ↔
            (i ∈ remaining ∧ ¬ i ∈ g.map (fun t => t.id)) := by
          simp [List.mem_filter]
        rw [hfilt, List.mem_append]
        tauto
      · intro p hp
        rcases List.mem_append.mp hp with hp | hp
        · rcases List.mem_map.mp hp with ⟨t, ht, rfl⟩
          exact ⟨t, by simp [ht], rfl⟩
        · rcases horig p hp with ⟨t, ht, rfl⟩
          exact ⟨t, by simp at ht ⊢; exact Or.inr ht, rfl⟩
      · intro hns
        rcases hok hns with ⟨hall, hsucc⟩
        constructor
        · intro t ht
          rw [List.mem_flatten] at ht
          rcases ht with ⟨l, hl, htl⟩
          rw [List.map_append, map_fst_pair, List.mem_append]
          rcases List.mem_cons.mp hl with rfl | hl
          · exact Or.inl (List.mem_map.mpr ⟨t, htl, rfl⟩)
          · exact Or.inr (hall t (List.mem_flatten.mpr ⟨l, hl, htl⟩))
        · intro p hp
          rcases List.mem_append.mp hp with hp | hp
          · have := List.any_eq_false.mp (Bool.eq_false_iff.mpr hfail) p hp
            simpa using this
          · exact hsucc p hp
      · intro hs
        rcases hstop hs with ⟨p, hp, hfp⟩
        exact ⟨p, List.mem_append.mpr (Or.inr hp), hfp⟩

/-- The key-collection fold only ever grows its accumulator. -/
theorem mem_foldl_groupKeys (l : List PMTask) :
    ∀ (acc : List Int) (x : Int), x ∈ acc →
      x ∈ l.foldl (fun ks t =>
        if ks.contains (pgKey t) then ks else ks ++ [pgKey t]) acc := by
  induction l with
  | nil => intro acc x hx; exact hx
  | cons t rest ih =>
    intro acc x hx
    simp only [List.foldl_cons]
    by_cases h : acc.contains (pgKey t)
    · rw [if_pos h]; exact ih acc x hx
    · rw [if_neg h]
      exact ih _ x (List.mem_append.mpr (Or.inl hx))

/-- Each ready task's group key occurs among the dict keys. -/
theorem pgKey_mem_groupKeys (l : List PMTask) :
    ∀ (t : PMTask), t ∈ l → pgKey t ∈ groupKeys l := by
  suffices h : ∀ (acc : List Int) (t : PMTask), t ∈ l →
      pgKey t ∈ l.foldl (fun ks u =>
        if ks.contains (pgKey u) then ks else ks ++ [pgKey u]) acc by
    intro t ht; exact h [] t ht
  induction l with
  | nil => intro acc t ht; cases ht
  | cons u rest ih =>
    intro acc t ht
    simp only [List.foldl_cons]
    rcases List.mem_cons.mp ht with rfl | ht
    · by_cases h : acc.contains (pgKey t)
      · rw [if_pos h]
        exact mem_foldl_groupKeys rest acc (pgKey t)
          ((contains_eq_mem acc (pgKey t)).mp h)
      · rw [if_neg h]
        exact mem_foldl_groupKeys rest _ (pgKey t)
          (List.mem_append.mpr (Or.inr (List.mem_singleton.mpr rfl)))
    · by_cases h : acc.contains (pgKey u)
      · rw [if_pos h]; exact ih acc t ht
      · rw [if_neg h]; exact ih _ t ht

/-- Every ready task occurs in some group of its wave. -/
theorem mem_flatten_groupReady (ready : List PMTask) (t : PMTask)
    (ht : t ∈ ready) : t ∈ (groupReady ready).flatten := by
  refine List.mem_flatten.mpr
    ⟨ready.filter (fun u => pgKey u == pgKey t), ?_, ?_⟩
  · exact List.mem_map.mpr ⟨pgKey t, pgKey_mem_groupKeys ready t ht, rfl⟩
  · exact List.mem_filter.mpr ⟨ht, by simp⟩

/-- Conversely, the groups of a wave only contain ready tasks. -/
theorem flatten_groupReady_sub (ready : List PMTask) (t : PMTask)
    (ht : t ∈ (groupReady ready).flatten) : t ∈ ready := by
  rcases List.mem_flatten.mp ht with ⟨l, hl, htl⟩
  rcases List.mem_map.mp hl with ⟨k, _, rfl⟩
  exact (List.mem_filter.mp htl).1

/-- Membership in the ready list, stated over propositions: exactly the
tasks still remaining whose full dependency set is contained in
`completed`. -/
theorem readySet_mem (tasks : List PMTask) (completed remaining : List String)
    (t : PMTask) :
    t ∈ readySet tasks completed remaining ↔
      (t ∈ tasks ∧ t.id ∈ remaining ∧
        ∀ d ∈ t.dependencies, d ∈ completed) := by
  simp [readySet, List.mem_filter]

/-- A wave whose groups all ran (no cascade stop) strictly shrinks
`remaining`, provided the wave is nonempty. -/
theorem wave_remaining_lt (oracle : PMTask → ExecResult)
    (ready : List PMTask) (completed remaining : List String)
    (acc : List (String × ExecResult)) (h0 : ready ≠ [])
    (hrdy : ∀ t ∈ ready, t.id ∈ remaining)
    (hns : (runGroups oracle (groupReady ready) completed remaining
      acc).stopped = false) :
    (runGroups oracle (groupReady ready) completed remaining
      acc).remaining.length < remaining.length := by
  rcases List.exists_mem_of_ne_nil ready h0 with ⟨t0, ht0⟩
  rcases runGroups_spec oracle (groupReady ready) completed remaining acc with
    ⟨new, _, _, hrem, _, hok, _⟩
  have hid : t0.id ∈ new.map Prod.fst :=
    (hok hns).1 t0 (mem_flatten_groupReady ready t0 ht0)
  have hnot : ¬ t0.id ∈ (runGroups oracle (groupReady ready) completed
      remaining acc).remaining := by
    intro hmem
    exact ((hrem t0.id).mp hmem).2 hid
  have hsub := runGroups_remaining_sublist oracle (groupReady ready)
    completed remaining acc
  refine lt_of_le_of_ne hsub.length_le ?_
  intro hlen
  rw [hsub.eq_of_length hlen] at hnot
  exact hnot (hrdy t0 ht0)

/-- Two booleans agreeing as propositions are equal. -/
theorem bool_eq_of_iff {a b : Bool} (h : a = true ↔ b = true) : a = b := by
  cases a <;> cases b <;> simp_all

/-- Loop equation: empty `remaining` ends the run with a summary. -/
theorem etl_eq_empty (tasks : List PMTask) (oracle : PMTask → ExecResult)
    (fuel : Nat) (completed remaining : List String)
    (acc : List (String × ExecResult)) (h : remaining.isEmpty = true) :
    execute_tasks_loop tasks oracle (fuel + 1) completed remaining acc =
      finishReport tasks completed acc false := by
  simp [execute_tasks_loop, h]

/-- Loop equation: no ready task while tasks remain yields the
circular-dependency error, then the summary. -/
theorem etl_eq_noready (tasks : List PMTask) (oracle : PMTask → ExecResult)
    (fuel : Nat) (completed remaining : List String)
    (acc : List (String × ExecResult)) (h1 : remaining.isEmpty = false)
    (h2 : (readySet tasks completed remaining).isEmpty = true) :
    execute_tasks_loop tasks oracle (fuel + 1) completed remaining acc =
      finishReport tasks completed acc true := by
  simp [execute_tasks_loop, h1, h2]

/-- Loop equation: a wave whose gather contained a failure triggers the
cascade-stop early return. -/
theorem etl_eq_stop (tasks : List PMTask) (oracle : PMTask → ExecResult)
    (fuel : Nat) (completed remaining : List String)
    (acc : List (String × ExecResult)) (h1 : remaining.isEmpty = false)
    (h2 : (readySet tasks completed remaining).isEmpty = false)
    (h3 : (runGroups oracle (groupReady (readySet tasks completed remaining))
      completed remaining acc).stopped = true) :
    execute_tasks_loop tasks oracle (fuel + 1) completed remaining acc =
      stopReport tasks (runGroups oracle
        (groupReady (readySet tasks completed remaining)) completed remaining
        acc) := by
  simp [execute_tasks_loop, h1, h2, h3]

/-- Loop equation: a fully successful wave recurses on the shrunken state. -/
theorem etl_eq_go (tasks : List PMTask) (oracle : PMTask → ExecResult)
    (fuel : Nat) (completed remaining : List String)
    (acc : List (String × ExecResult)) (h1 : remaining.isEmpty = false)
    (h2 : (readySet tasks completed remaining).isEmpty = false)
    (h3 : (runGroups oracle (groupReady (readySet tasks completed remaining))
      completed remaining acc).stopped = false) :
    execute_tasks_loop tasks oracle (fuel + 1) completed remaining acc =
      execute_tasks_loop tasks oracle fuel
        (runGroups oracle (groupReady (readySet tasks completed remaining))
          completed remaining acc).completed
        (runGroups oracle (groupReady (readySet tasks completed remaining))
          completed remaining acc).remaining
        (runGroups oracle (groupReady (readySet tasks completed remaining))
          completed remaining acc).acc := by
  simp [execute_tasks_loop, h1, h2, h3]

/-- Invariant induction for the cascade stop: starting from a state where
`remaining` holds exactly the not-yet-started ids, a run that ends in the
early return contains a failed result, and its "Remaining Tasks" report
lists exactly the tasks that were never started, in task order. -/
theorem execute_tasks_loop_stop_spec (tasks : List PMTask)
    (oracle : PMTask → ExecResult) :
    ∀ (fuel : Nat) (completed remaining : List String)
      (acc : List (String × ExecResult)),
      remaining.length < fuel →
      (∀ i : String, i ∈ remaining ↔
        (i ∈ allIds tasks ∧ ¬ i ∈ acc.map Prod.fst)) →
      (execute_tasks_loop tasks oracle fuel completed remaining
        acc).stoppedOnFailure = true →
      ((∃ p ∈ (execute_tasks_loop tasks oracle fuel completed remaining
          acc).results, ¬ p.2.status = "completed") ∧
        (execute_tasks_loop tasks oracle fuel completed remaining
            acc).skippedReport =
          (tasks.filter (fun t =>
            !(((execute_tasks_loop tasks oracle fuel completed remaining
              acc).results.map Prod.fst).contains t.id))).map
            (fun t => t.id)) := by
  intro fuel
  induction fuel with
  | zero => intro completed remaining acc hfuel; omega
  | succ fuel ih =>
    intro completed remaining acc hfuel hinv hstop
    by_cases hre : remaining.isEmpty
    · rw [etl_eq_empty tasks oracle fuel completed remaining acc hre]
        at hstop
      simp [finishReport] at hstop
    · rw [Bool.not_eq_true] at hre
      by_cases hready : (readySet tasks completed remaining).isEmpty
      · rw [etl_eq_noready tasks oracle fuel completed remaining acc hre
          hready] at hstop
        simp [finishReport] at hstop
      · rw [Bool.not_eq_true] at hready
        rcases runGroups_spec oracle
            (groupReady (readySet tasks completed remaining)) completed
            remaining acc with ⟨new, hacc, _, hrem, _, hok, hfailex⟩
        by_cases hs : (runGroups oracle
            (groupReady (readySet tasks completed remaining)) completed
            remaining acc).stopped
        · rw [etl_eq_stop tasks oracle fuel completed remaining acc hre
            hready hs] at hstop ⊢
          constructor
          · rcases hfailex hs with ⟨p, hp, hps⟩
            exact ⟨p, by rw [stopReport, hacc]; simpa using Or.inr hp, hps⟩
          · simp only [stopReport]
            congr 1
            apply List.filter_congr
            intro t htt
            apply bool_eq_of_iff
            rw [contains_eq_mem, Bool.not_eq_true', Bool.eq_false_iff]
            rw [hrem t.id, hinv t.id, hacc, List.map_append]
            have hmem : t.id ∈ allIds tasks :=
              List.mem_map.mpr ⟨t, htt, rfl⟩
            simp only [Ne, contains_eq_mem, List.mem_append]
            constructor
            · rintro ⟨⟨_, h1⟩, h2⟩ hc
              tauto
            · intro hnc
              push_neg at hnc
              exact ⟨⟨hmem, hnc.1⟩, hnc.2⟩
        · rw [Bool.not_eq_true] at hs
          rw [etl_eq_go tasks oracle fuel completed remaining acc hre hready
            hs] at hstop ⊢
          have hne : readySet tasks completed remaining ≠ [] := by
            intro h
            rw [h] at hready
            simp at hready
          have hlt := wave_remaining_lt oracle
            (readySet tasks completed remaining) completed remaining acc hne
            (fun t ht => ((readySet_mem tasks completed remaining t).mp
              ht).2.1) hs
          refine ih _ _ _ (by omega) ?_ hstop
          intro i
          rw [hrem i, hinv i, hacc, List.map_append, List.mem_append]
          tauto

/-- A dependency-respecting trace may be extended by any batch of entries
whose tasks have all their dependencies already completed in the existing
trace. -/
theorem TraceOK_append (tasks : List PMTask) :
    ∀ (new res : List (String × ExecResult)), TraceOK tasks res →
      (∀ p ∈ new, ∀ t ∈ tasks, t.id = p.1 → ∀ d ∈ t.dependencies,
        ∃ q ∈ res, q.1 = d ∧ q.2.status = "completed") →
      TraceOK tasks (res ++ new) := by
  intro new
  induction new with
  | nil => intro res hres _; simpa using hres
  | cons p rest ih =>
    intro res hres hnew
    rw [List.append_cons]
    refine ih (res ++ [p]) (TraceOK.snoc res p hres ?_) ?_
    · exact hnew p (List.mem_cons_self p rest)
    · intro q hq t ht hid d hd
      rcases hnew q (List.mem_cons_of_mem p hq) t ht hid d hd with
        ⟨r, hr, hrd⟩
      exact ⟨r, List.mem_append.mpr (Or.inl hr), hrd⟩

/-- Invariant induction for dependency order: starting from a trace that
respects dependencies and a `completed` set whose every id has a completed
result in the trace, the loop produces a dependency-respecting trace. -/
theorem execute_tasks_loop_trace (tasks : List PMTask)
    (oracle : PMTask → ExecResult)
    (hn : (tasks.map (fun t => t.id)).Nodup) :
    ∀ (fuel : Nat) (completed remaining : List String)
      (acc : List (String × ExecResult)),
      remaining.length < fuel →
      TraceOK tasks acc →
      (∀ d ∈ completed, ∃ q ∈ acc, q.1 = d ∧ q.2.status = "completed") →
      TraceOK tasks
        (execute_tasks_loop tasks oracle fuel completed remaining
          acc).results := by
  intro fuel
  induction fuel with
  | zero => intro completed remaining acc hfuel; omega
  | succ fuel ih =>
    intro completed remaining acc hfuel hTr hcomp
    by_cases hre : remaining.isEmpty
    · rw [etl_eq_empty tasks oracle fuel completed remaining acc hre]
      simpa [finishReport] using hTr
    · rw [Bool.not_eq_true] at hre
      by_cases hready : (readySet tasks completed remaining).isEmpty
      · rw [etl_eq_noready tasks oracle fuel completed remaining acc hre
          hready]
        simpa [finishReport] using hTr
      · rw [Bool.not_eq_true] at hready
        rcases runGroups_spec oracle
            (groupReady (readySet tasks completed remaining)) completed
            remaining acc with ⟨new, hacc, hcompEq, hrem, horig, hok, _⟩
        have hTr2 : TraceOK tasks (acc ++ new) := by
          refine TraceOK_append tasks new acc hTr ?_
          intro p hp t ht hid d hd
          rcases horig p hp with ⟨t0, ht0, rfl⟩
          have ht0r := flatten_groupReady_sub _ t0 ht0
          rcases (readySet_mem tasks completed remaining t0).mp ht0r with
            ⟨ht0t, -, hdeps⟩
          have : t = t0 := List.inj_on_of_nodup_map hn ht ht0t hid
          subst this
          exact hcomp d (hdeps d hd)
        by_cases hs : (runGroups oracle
            (groupReady (readySet tasks completed remaining)) completed
            remaining acc).stopped
        · rw [etl_eq_stop tasks oracle fuel completed remaining acc hre
            hready hs]
          rw [stopReport, hacc]
          exact hTr2
        · rw [Bool.not_eq_true] at hs
          rw [etl_eq_go tasks oracle fuel completed remaining acc hre hready
            hs]
          have hne : readySet tasks completed remaining ≠ [] := by
            intro h
            rw [h] at hready
            simp at hready
          have hlt := wave_remaining_lt oracle
            (readySet tasks completed remaining) completed remaining acc hne
            (fun t ht => ((readySet_mem tasks completed remaining t).mp
              ht).2.1) hs
          refine ih _ _ _ (by omega) (by rw [hacc]; exact hTr2) ?_
          intro d hd
          rw [hacc]
          rw [hcompEq] at hd
          rcases List.mem_append.mp hd with hd | hd
          · rcases hcomp d hd with ⟨q, hq, hqd⟩
            exact ⟨q, List.mem_append.mpr (Or.inl hq), hqd⟩
          · rcases List.mem_map.mp hd with ⟨p, hp, rfl⟩
            exact ⟨p, List.mem_append.mpr (Or.inr hp), rfl,
              (hok hs).2 p hp⟩

/-- Claim C1: a verification result passes iff the parsed verdict is PASS and
the parsed score is at least 80; verdict `Pass` with score 79 does not pass,
verdict `Pass` with score 80 passes, verdict `Fail` with score 95 does not
pass. -/
theorem c1_pass_rule :
    (∀ (out : String) (vm : Option String) (sm : Option Nat)
        (iss : List String),
      (execute_qc out vm sm iss).passed = true ↔
        (parsedVerdict vm = "PASS" ∧ parsedScore sm ≥ 80)) ∧
    (execute_qc "" (some "Pass") (some 79) []).passed = false ∧
    (execute_qc "" (some "Pass") (some 80) []).passed = true ∧
    (execute_qc "" (some "Fail") (some 95) []).passed = false := by
  refine ⟨?_, by decide, by decide, by decide⟩
  intro out vm sm iss
  simp only [execute_qc, Bool.and_eq_true, beq_iff_eq, decide_eq_true_eq]

/-- Claim C10: when no verdict pattern is recognized the verdict defaults to
FAIL (and the result never passes); when no score pattern is recognized the
score defaults to 0 (and the result never passes); the exception branch never
passes and has score 0. -/
theorem c10_default_fail :
    (∀ (out : String) (sm : Option Nat) (iss : List String),
      parsedVerdict none = "FAIL" ∧
      (execute_qc out none sm iss).passed = false) ∧
    (∀ (out : String) (vm : Option String) (iss : List String),
      (execute_qc out vm none iss).score = 0 ∧
      (execute_qc out vm none iss).passed = false) ∧
    (∀ e : String,
      (execute_qc_exception e).passed = false ∧
      (execute_qc_exception e).score = 0) := by
  refine ⟨fun out sm iss => ⟨rfl, ?_⟩, fun out vm iss => ⟨rfl, ?_⟩,
    fun e => ⟨rfl, rfl⟩⟩
  · simp [execute_qc, parsedVerdict]
  · simp [execute_qc, parsedScore]

/-- Claim C9 evaluation: request deduplication is per `Pipe` instance, not
process-wide.  On one instance, a request is recorded (first conjunct) and
its repeat one second later is rejected (second conjunct); but a second
`Pipe` instance starts from the fresh `__init__` cache, so the very same
fingerprint one second later is processed, not rejected (third conjunct),
contradicting the process-wide claim and the comment on the unused
module-level `_REQUEST_CACHE`.  The fourth conjunct shows TTL pruning on a
request: an entry 6 seconds old is dropped while a 1-second-old entry and
the new entry are kept. -/
theorem c9_per_instance_cache :
    (pipe_dedup pipeInstanceCache "k" 0).1 = false ∧
    (pipe_dedup (pipe_dedup pipeInstanceCache "k" 0).2 "k" 1).1 = true ∧
    (pipe_dedup pipeInstanceCache "k" 1).1 = false ∧
    (pipe_dedup [("old", -5), ("k", 0)] "x" 1).2 = [("k", 0), ("x", 1)] := by
  refine ⟨rfl, rfl, rfl, by decide⟩

/-- Claim C3: for a retry bound `max_retries = N` the task makes at most
`N + 1` worker invocations before reaching a terminal state, and the attempt
counter never exceeds `N + 1`; `_execute_with_qc` as written is the `N = 2`
instance of that loop. -/
theorem c3_retry_bound :
    (∀ (N : Nat) (worker : Nat → WorkerResult) (qc : Nat → QCOutcome),
      (execute_with_qc_gen N worker qc).workerCalls ≤ N + 1 ∧
      (execute_with_qc_gen N worker qc).finalAttempt ≤ N + 1) ∧
    (∀ (worker : Nat → WorkerResult) (qc : Nat → QCOutcome),
      execute_with_qc worker qc = execute_with_qc_gen 2 worker qc) := by
  refine ⟨fun N worker qc => ?_, fun worker qc => rfl⟩
  have h := execute_with_qc_loop_calls worker qc N (N + 1) 0 0 (by omega)
  exact ⟨le_trans h.1 (by omega), h.2⟩

/-- Claim C7 counterexample: a transport failure (here a raised connection
error inside `_call_llm`) does not terminate the task as `Failed`.
`_call_llm` converts the exception into error text yielded as output, so
`_execute_worker` reports status `completed` (first conjunct); the attempt
then flows into QC and is retried like any quality failure, making all
3 worker invocations (second conjunct); and the final error recorded is the
QC-exhaustion message, not the raw transport error (third conjunct). -/
theorem c7_counterexample :
    (execute_worker none "gpt-4"
        (LLMTransport.exn "Connection refused")).status = "completed" ∧
    (execute_with_qc
        (fun _ => execute_worker none "gpt-4"
          (LLMTransport.exn "Connection refused"))
        (fun _ => execute_qc "error output" none none [])).workerCalls = 3 ∧
    (execute_with_qc
        (fun _ => execute_worker none "gpt-4"
          (LLMTransport.exn "Connection refused"))
        (fun _ => execute_qc "error output" none none [])).result.error =
      some "QC failed after 3 attempts. Score: 0/100" := by
  refine ⟨rfl, by decide, by decide⟩

/-- Claim C7 amended: a worker invocation that reports a failed status (an
exception escaping `_execute_worker`, i.e. one raised outside `_call_llm`,
since `_call_llm` converts transport errors into ordinary output text)
immediately terminates the task as `Failed` with the raw error recorded, and
is never retried: with the first attempt failing this way there is exactly
one worker invocation, for every retry bound. -/
theorem c7_worker_failure_terminal (N : Nat) (qc : Nat → QCOutcome)
    (outp : Option String) (e : String) :
    (execute_with_qc_gen N (constFailedWorker outp e) qc).result.status =
        "failed" ∧
    (execute_with_qc_gen N (constFailedWorker outp e) qc).result.error =
        some e ∧
    (execute_with_qc_gen N (constFailedWorker outp e) qc).workerCalls = 1 := by
  simp [execute_with_qc_gen, execute_with_qc_loop, constFailedWorker]

/-- A run that never fired the cascade stop contains only completed
results: every failed result forces the early return, so no later wave ever
starts after a failure. -/
theorem execute_tasks_loop_nofail (tasks : List PMTask)
    (oracle : PMTask → ExecResult) :
    ∀ (fuel : Nat) (completed remaining : List String)
      (acc : List (String × ExecResult)),
      (∀ p ∈ acc, p.2.status = "completed") →
      (execute_tasks_loop tasks oracle fuel completed remaining
        acc).stoppedOnFailure = false →
      ∀ p ∈ (execute_tasks_loop tasks oracle fuel completed remaining
        acc).results, p.2.status = "completed" := by
  intro fuel
  induction fuel with
  | zero =>
    intro completed remaining acc hacc _
    simpa [execute_tasks_loop, finishReport] using hacc
  | succ fuel ih =>
    intro completed remaining acc hacc hns
    by_cases hre : remaining.isEmpty
    · rw [etl_eq_empty tasks oracle fuel completed remaining acc hre]
      simpa [finishReport] using hacc
    · rw [Bool.not_eq_true] at hre
      by_cases hready : (readySet tasks completed remaining).isEmpty
      · rw [etl_eq_noready tasks oracle fuel completed remaining acc hre
          hready]
        simpa [finishReport] using hacc
      · rw [Bool.not_eq_true] at hready
        by_cases hs : (runGroups oracle
            (groupReady (readySet tasks completed remaining)) completed
            remaining acc).stopped
        · rw [etl_eq_stop tasks oracle fuel completed remaining acc hre
            hready hs] at hns
          simp [stopReport] at hns
        · rw [Bool.not_eq_true] at hs
          rw [etl_eq_go tasks oracle fuel completed remaining acc hre hready
            hs] at hns ⊢
          rcases runGroups_spec oracle
              (groupReady (readySet tasks completed remaining)) completed
              remaining acc with ⟨new, hacc2, _, _, _, hok, _⟩
          refine ih _ _ _ ?_ hns
          rw [hacc2]
          intro p hp
          rcases List.mem_append.mp hp with hp | hp
          · exact hacc p hp
          · exact (hok hs).2 p hp

/-- Claim C2: a failed task always fires the cascade stop — a run that did
not end in the early return contains only completed results, so no wave
after a failure ever starts (first conjunct).  When the run does end in the
cascade-stop early return: some gathered result failed, and tasks of the
failing gather — including siblings ordered after the failure — all have
results since the gather completes as a whole; the "Remaining Tasks" report
lists exactly the tasks that were never started, in task order; and no
reported-skipped task ever started, so skipped is disjoint from failed and
completed (second conjunct). -/
theorem c2_cascade_stop (tasks : List PMTask)
    (oracle : PMTask → ExecResult) :
    ((execute_tasks tasks oracle).stoppedOnFailure = false →
      ∀ p ∈ (execute_tasks tasks oracle).results,
        p.2.status = "completed") ∧
    ((execute_tasks tasks oracle).stoppedOnFailure = true →
      (∃ p ∈ (execute_tasks tasks oracle).results,
        ¬ p.2.status = "completed") ∧
      (execute_tasks tasks oracle).skippedReport =
        (tasks.filter (fun t =>
          !(((execute_tasks tasks oracle).results.map Prod.fst).contains
            t.id))).map (fun t => t.id) ∧
      ∀ i ∈ (execute_tasks tasks oracle).skippedReport,
        ¬ i ∈ (execute_tasks tasks oracle).results.map Prod.fst) := by
  have hunf : execute_tasks tasks oracle = execute_tasks_loop tasks oracle
      (((tasks.map (fun t => t.id)).dedup).length + 1) []
      ((tasks.map (fun t => t.id)).dedup) [] := rfl
  rw [hunf]
  constructor
  · intro hns
    exact execute_tasks_loop_nofail tasks oracle _ _ _ _
      (by intro p hp; cases hp) hns
  · intro hstop
    have hmain := execute_tasks_loop_stop_spec tasks oracle
      (((tasks.map (fun t => t.id)).dedup).length + 1) []
      ((tasks.map (fun t => t.id)).dedup) [] (by omega)
      (by intro i; simp [allIds, List.mem_dedup]) hstop
    refine ⟨hmain.1, hmain.2, ?_⟩
    intro i hi
    rw [hmain.2] at hi
    rcases List.mem_map.mp hi with ⟨t, htf, rfl⟩
    have := (List.mem_filter.mp htf).2
    simp only [Bool.not_eq_true', Bool.eq_false_iff, Ne,
      contains_eq_mem] at this
    exact this

/-- Claim C2 witness: three tasks, `task-1` and `task-2` in the first wave
with `task-1` failing and its sibling `task-2` finishing normally, `task-3`
depending on `task-1`: the run stops on failure, both wave tasks have
results, and `task-3` is reported as never started. -/
theorem c2_cascade_stop_witness :
    (execute_tasks waveTasks failFirstOracle).stoppedOnFailure = true ∧
    ((∃ p ∈ (execute_tasks waveTasks failFirstOracle).results,
        ¬ p.2.status = "completed") ∧
      (execute_tasks waveTasks failFirstOracle).skippedReport =
        (waveTasks.filter (fun t =>
          !(((execute_tasks waveTasks failFirstOracle).results.map
            Prod.fst).contains t.id))).map (fun t => t.id) ∧
      ∀ i ∈ (execute_tasks waveTasks failFirstOracle).skippedReport,
        ¬ i ∈ (execute_tasks waveTasks failFirstOracle).results.map
          Prod.fst) :=
  ⟨by decide, (c2_cascade_stop waveTasks failFirstOracle).2 (by decide)⟩

/-- Claim C4 counterexample: on the task set with an independent `task-3`
and the cycle `task-1 -> task-2 -> task-1`, the run does yield the
circular-dependency error, but only after `task-3` has already been
executed: the error is not produced before any worker call, so validation
does not abort the run before any task executes. -/
theorem c4_counterexample :
    (execute_tasks cycleTasks allOkOracle).graphError = true ∧
    (execute_tasks cycleTasks allOkOracle).results.map Prod.fst =
      ["task-3"] := by
  exact ⟨by decide, by decide⟩

/-- Claim C4 amended: cycle detection is lazy, performed at each scheduling
step when the ready list is empty while tasks remain.  When no task is ready
at the very first step — e.g. a plan that is exactly the cycle
`A -> B -> A`, and in general whenever every task has at least one
dependency — the circular-dependency error report is produced before any
worker call. -/
theorem c4_lazy_validation (tasks : List PMTask)
    (oracle : PMTask → ExecResult) (h1 : tasks ≠ [])
    (h2 : ∀ t ∈ tasks, t.dependencies ≠ []) :
    (execute_tasks tasks oracle).graphError = true ∧
    (execute_tasks tasks oracle).results = [] := by
  have hrem : (tasks.map (fun t => t.id)).dedup ≠ [] := by
    intro h
    rcases List.exists_mem_of_ne_nil tasks h1 with ⟨t, ht⟩
    have : t.id ∈ (tasks.map (fun t => t.id)).dedup :=
      List.mem_dedup.mpr (List.mem_map.mpr ⟨t, ht, rfl⟩)
    rw [h] at this
    cases this
  have hre : ((tasks.map (fun t => t.id)).dedup).isEmpty = false := by
    rw [Bool.eq_false_iff]
    intro h
    exact hrem (List.isEmpty_iff.mp h)
  have hready : readySet tasks [] ((tasks.map (fun t => t.id)).dedup) = [] := by
    rw [readySet, List.filter_eq_nil_iff]
    intro t ht
    rw [Bool.and_eq_true]
    rintro ⟨-, hall⟩
    rcases List.exists_mem_of_ne_nil t.dependencies (h2 t ht) with ⟨d, hd⟩
    have := List.all_eq_true.mp hall d hd
    simp at this
  have hready2 : (readySet tasks []
      ((tasks.map (fun t => t.id)).dedup)).isEmpty = true := by
    rw [hready]; rfl
  have := etl_eq_noready tasks oracle
    (((tasks.map (fun t => t.id)).dedup).length) []
    ((tasks.map (fun t => t.id)).dedup) [] hre hready2
  rw [show execute_tasks tasks oracle = execute_tasks_loop tasks oracle
      ((((tasks.map (fun t => t.id)).dedup).length) + 1) []
      ((tasks.map (fun t => t.id)).dedup) [] from rfl, this]
  exact ⟨rfl, rfl⟩

/-- Claim C4 amended witness: the pure two-task cycle
`task-1 -> task-2 -> task-1` satisfies the hypotheses, and its run reports
the circular-dependency error with no task executed. -/
theorem c4_lazy_validation_witness :
    (pureCycleTasks ≠ [] ∧ ∀ t ∈ pureCycleTasks, t.dependencies ≠ []) ∧
    ((execute_tasks pureCycleTasks allOkOracle).graphError = true ∧
      (execute_tasks pureCycleTasks allOkOracle).results = []) :=
  ⟨⟨by decide, by decide⟩,
    c4_lazy_validation pureCycleTasks allOkOracle (by decide) (by decide)⟩

/-- Claim C5: for task sets with unique ids, the executed trace respects
dependencies — every started task has each of its dependencies started
earlier with a `completed` result (first conjunct); and the ready list at
each scheduling step contains exactly the tasks still remaining whose full
dependency set is contained in the completed set (second conjunct). -/
theorem c5_deps_before_start (tasks : List PMTask)
    (oracle : PMTask → ExecResult)
    (hn : (tasks.map (fun t => t.id)).Nodup) :
    TraceOK tasks (execute_tasks tasks oracle).results ∧
    ∀ (completed remaining : List String) (t : PMTask),
      t ∈ readySet tasks completed remaining ↔
        (t ∈ tasks ∧ t.id ∈ remaining ∧
          ∀ d ∈ t.dependencies, d ∈ completed) := by
  constructor
  · have hunf : execute_tasks tasks oracle = execute_tasks_loop tasks oracle
        (((tasks.map (fun t => t.id)).dedup).length + 1) []
        ((tasks.map (fun t => t.id)).dedup) [] := rfl
    rw [hunf]
    refine execute_tasks_loop_trace tasks oracle hn _ _ _ _ (by omega)
      TraceOK.nil ?_
    intro d hd
    cases hd
  · exact readySet_mem tasks

/-- Claim C5 witness: the three-task plan (`task-1`, `task-2` independent,
`task-3` after `task-1`) has unique ids and its all-successful run yields a
dependency-respecting trace. -/
theorem c5_deps_before_start_witness :
    (waveTasks.map (fun t => t.id)).Nodup ∧
    (TraceOK waveTasks (execute_tasks waveTasks allOkOracle).results ∧
      ∀ (completed remaining : List String) (t : PMTask),
        t ∈ readySet waveTasks completed remaining ↔
          (t ∈ waveTasks ∧ t.id ∈ remaining ∧
            ∀ d ∈ t.dependencies, d ∈ completed)) :=
  ⟨by decide, c5_deps_before_start waveTasks allOkOracle (by decide)⟩

/-- Claim C6: the wave loop makes progress — with tasks remaining, either no
task is ready and the loop halts with the circular-dependency report, or a
wave runs and either stops the run (cascade stop) or strictly removes at
least one task from `remaining`.  There is no infinite wave loop: the
embedding is total with `remaining.length + 1` units of fuel, which this
progress property shows sufficient. -/
theorem c6_wave_progress (tasks : List PMTask)
    (oracle : PMTask → ExecResult) (fuel : Nat)
    (completed remaining : List String)
    (acc : List (String × ExecResult)) (h : remaining ≠ []) :
    ((readySet tasks completed remaining).isEmpty = true →
      execute_tasks_loop tasks oracle (fuel + 1) completed remaining acc =
        finishReport tasks completed acc true) ∧
    (readySet tasks completed remaining ≠ [] →
      (runGroups oracle (groupReady (readySet tasks completed remaining))
          completed remaining acc).stopped = true ∨
        (runGroups oracle (groupReady (readySet tasks completed remaining))
          completed remaining acc).remaining.length < remaining.length) := by
  have hre : remaining.isEmpty = false := by
    rw [Bool.eq_false_iff]
    intro hc
    exact h (List.isEmpty_iff.mp hc)
  constructor
  · intro hready
    exact etl_eq_noready tasks oracle fuel completed remaining acc hre hready
  · intro hne
    by_cases hs : (runGroups oracle
        (groupReady (readySet tasks completed remaining)) completed remaining
        acc).stopped
    · exact Or.inl hs
    · rw [Bool.not_eq_true] at hs
      exact Or.inr (wave_remaining_lt oracle
        (readySet tasks completed remaining) completed remaining acc hne
        (fun t ht => ((readySet_mem tasks completed remaining t).mp
          ht).2.1) hs)

/-- Claim C8 evaluation: the plan parser is *not* total.  On the plan
`**Task ID:** task-1\n**Parallel Group:** ²` the extracted parallel-group
value `²` satisfies `str.isdigit` (Unicode `Numeric_Type=Digit`) but is not
a decimal digit, so `int()` raises an uncaught `ValueError` (first
conjunct).  The remaining conjuncts evaluate the behaviour the claim
correctly describes on benign input: a section without a recognizable task
id is dropped and recorded as a warning while the tasks come back in
document order (second conjunct), and the empty plan yields the valid
empty task list (third conjunct). -/
theorem c8_parser_crash :
    parse_pm_tasks "**Task ID:** task-1\n**Parallel Group:** ²" =
      Except.error "ValueError: invalid literal for int() with base 10" ∧
    (parse_pm_tasks
        "intro\n**Task ID:** task-1\n**Title:** First\n**Dependencies:** none\n**Task ID:** task-2\n**Dependencies:** task-1").map
        (fun r => (r.1.map (fun t => t.id),
          r.1.map (fun t => t.dependencies), r.2)) =
      Except.ok (["task-1", "task-2"], [[], ["task-1"]], ["intro"]) ∧
    parse_pm_tasks "" = Except.ok ([], []) := by
  exact ⟨rfl, rfl, rfl⟩

/-- Claim C6 witness: a concrete scheduling state with tasks remaining,
instantiating the progress property. -/
theorem c6_wave_progress_witness :
    (["task-1", "task-2", "task-3"] : List String) ≠ [] ∧
    (((readySet waveTasks [] ["task-1", "task-2", "task-3"]).isEmpty = true →
      execute_tasks_loop waveTasks allOkOracle 1 []
          ["task-1", "task-2", "task-3"] [] =
        finishReport waveTasks [] [] true) ∧
    (readySet waveTasks [] ["task-1", "task-2", "task-3"] ≠ [] →
      (runGroups allOkOracle
          (groupReady (readySet waveTasks [] ["task-1", "task-2", "task-3"]))
          [] ["task-1", "task-2", "task-3"] []).stopped = true ∨
        (runGroups allOkOracle
          (groupReady (readySet waveTasks [] ["task-1", "task-2", "task-3"]))
          [] ["task-1", "task-2", "task-3"] []).remaining.length <
          (["task-1", "task-2", "task-3"] : List String).length)) :=
  ⟨by decide, c6_wave_progress waveTasks allOkOracle 0 []
    ["task-1", "task-2", "task-3"] [] (by decide)⟩

end Mimir
